import Mathlib

/-!
Verification of the template parser in `src/template.ts` of the crank
repository.  The parser consumes an interleaved sequence of literal text
fragments ("spans") and opaque substitution values ("expressions") and builds
a tree of elements.  All definitions below are transcribed from the source
file; the sole exception is the downstream element constructor `c`, which
lives in the absent `crank.js` module and is modelled from the spec.
-/

namespace Crank

/-- Opaque substitution values.  The source treats values as `unknown` and
inspects them only through `typeof`-style checks, `String(...)` conversion and
object spread; this inductive covers those observations. -/
inductive JSValue where
  | str (s : String)
  | num (n : Int)
  | bool (b : Bool)
  | null
  | undefined
  | obj (fields : List (String × JSValue))

/-- JS loose inequality against null: `exp != null` is false exactly for
`null` and `undefined`. -/
def jsIsNullish : JSValue → Bool
  | .null => true
  | .undefined => true
  | _ => false

/-- `typeof exp === "boolean"`. -/
def jsIsBool : JSValue → Bool
  | .bool _ => true
  | _ => false

/-- `String(exp)` on the values representable in `JSValue`. -/
def jsToString : JSValue → String
  | .str s => s
  | .num n => toString n
  | .bool b => if b then "true" else "false"
  | .null => "null"
  | .undefined => "undefined"
  | .obj _ => "[object Object]"

/-- JS strict equality `===` as used by the `current.tag !== tag` check.
Distinct object literals are distinct references, hence never strictly
equal. -/
def jsStrictEq : JSValue → JSValue → Bool
  | .str a, .str b => a == b
  | .num a, .num b => a == b
  | .bool a, .bool b => a == b
  | .null, .null => true
  | .undefined, .undefined => true
  | _, _ => false

/-- `getTagDisplay` from the source: strings display as themselves, other
values through `String(...)` (the function case cannot arise here). -/
def getTagDisplay (tag : JSValue) : String :=
  match tag with
  | .str s => s
  | v => jsToString v

/-- The character class `\s` of JS regexps (ASCII whitespace plus the
Unicode space characters it includes). -/
def jsIsSpace (c : Char) : Bool :=
  let n := c.toNat
  n == 9 || n == 10 || n == 11 || n == 12 || n == 13 || n == 32 ||
  n == 160 || n == 0x1680 ||
  (decide (0x2000 ≤ n) && decide (n ≤ 0x200a)) ||
  n == 0x2028 || n == 0x2029 || n == 0x202f || n == 0x205f ||
  n == 0x3000 || n == 0xfeff

/-- The identifier class `[-_$\w]` of the source's regexps (`\w` in JS is
`[A-Za-z0-9_]`). -/
def isIdentChar (c : Char) : Bool :=
  let n := c.toNat
  n == 45 || n == 95 || n == 36 ||
  (decide (97 ≤ n) && decide (n ≤ 122)) ||
  (decide (65 ≤ n) && decide (n ≤ 90)) ||
  (decide (48 ≤ n) && decide (n ≤ 57))

/-- Number of leading characters of `l` satisfying `p`. -/
def countWhile (p : Char → Bool) (l : List Char) : Nat :=
  (l.takeWhile p).length

/-- `span.slice(a, b)` on a character list. -/
def slice (l : List Char) (a b : Nat) : List Char :=
  (l.take b).drop a

/-- Strip trailing `\s` characters, as `replace(/\s*$/, "")` does. -/
def dropTrailingWs (l : List Char) : List Char :=
  (l.reverse.dropWhile jsIsSpace).reverse

/-- `String.prototype.trim()`. -/
def trimChars (l : List Char) : List Char :=
  dropTrailingWs (l.dropWhile jsIsSpace)

/-- One resolution step of `replace(/\\(.?)/g, "$1")`: every backslash is
removed and the character following it (if any) is kept literally. -/
def unescapeChars : List Char → List Char
  | '\\' :: c :: rest => c :: unescapeChars rest
  | ['\\'] => []
  | c :: rest => c :: unescapeChars rest
  | [] => []

/-- `formatString` from the source: remove the surrounding quotes with
`slice(1, -1)`, then resolve single-character backslash escapes. -/
def formatString (str : List Char) : String :=
  String.mk (unescapeChars ((str.drop 1).dropLast))

/-- Parse tree nodes (`ParseElement` / `ParseValue` of the source). -/
inductive PNode where
  | element (tag : JSValue) (props : Option (List (String × JSValue)))
      (children : List PNode)
  | value (v : JSValue)

/-- The element currently under construction (fields of `ParseElement`). -/
structure Elem where
  tag : JSValue
  props : Option (List (String × JSValue))
  children : List PNode

def Elem.toNode (e : Elem) : PNode :=
  .element e.tag e.props e.children

/-- The scanner mode, i.e. which of the five regexps is the active
`matcher`. -/
inductive Matcher where
  | children
  | props
  | closingTag
  | singleQuote
  | doubleQuote
  | closingComment
deriving DecidableEq

/-- The failure taxonomy of the parser.  `stackUnderflow` represents the
runtime crash that the unguarded `stack.pop()!` in the self-closing branch
would produce on an empty stack; it is proved unreachable. -/
inductive PErr where
  | unmatchedClosingTag (tag : String)
  | mismatchedClosingTag (closing : String) (opening : String)
  | unmatchedOpeningTag (tag : String)
  | missingSpreadExpression (tag : String)
  | expressionExpected
  | unexpectedText (text : String)
  | unexpectedExpression (v : JSValue)
  | missingCommentTerminator
  | stackUnderflow

/-- The mutable state threaded through `parse`. -/
structure PState where
  elem : Elem
  stack : List Elem
  matcher : Matcher
  lineStart : Bool
  propName : List Char
  propValue : List Char
  expressing : Bool

/-- `{...props, ...{[k]: v}}`: update the value in place when the key is
present, append otherwise. -/
def objAssign (props : List (String × JSValue)) (k : String) (v : JSValue) :
    List (String × JSValue) :=
  if props.any (fun kv => kv.1 == k) then
    props.map (fun kv => if kv.1 == k then (k, v) else kv)
  else props ++ [(k, v)]

/-- The key/value pairs contributed by spreading a value into an object
literal: objects contribute their fields, strings their indexed characters,
primitives nothing. -/
def jsSpreadFields : JSValue → List (String × JSValue)
  | .obj fs => fs
  | .str s => (List.range s.length).zip
      (s.data.map (fun ch => JSValue.str (String.mk [ch]))) |>.map
      (fun p => (toString p.1, p.2))
  | _ => []

/-- `{...current.props, ...(expressions[s] as any)}` in the spread-prop
branch. -/
def spreadMerge (props : Option (List (String × JSValue))) (v : JSValue) :
    List (String × JSValue) :=
  (jsSpreadFields v).foldl (fun acc kv => objAssign acc kv.1 kv.2)
    (props.getD [])

/-- Result kind of a `CHILDREN_RE` match: group 1 (newline run), group 2
(comment), or groups 3–5 (tag marker with its slashes and identifier). -/
inductive ChKind where
  | newline
  | comment
  | tag (slashes : Nat) (name : List Char)

/-- A `CHILDREN_RE` match: its index and its end within the span. -/
structure ChMatch where
  index : Nat
  stop : Nat
  kind : ChKind

/-- Offset of the first occurrence of `-->` in the list (the lazy
`[\S\s]*?(?:-->|$)` and the `CLOSING_COMMENT_RE` both look for the earliest
terminator). -/
def findCloseComment : List Char → Option Nat
  | '-' :: '-' :: '>' :: _ => some 0
  | _ :: rest => (findCloseComment rest).map (· + 1)
  | [] => none

/-- `CHILDREN_RE = /((?:\r|\n|\r\n)\s*)|(<!--[\S\s]*?(?:-->|$))|(<\s*(\/{0,2})\s*([-_$\w]*))/g`
executed on the suffix of the span starting at absolute position `pos`:
the earliest position whose character starts one of the three alternatives
wins, the comment alternative being preferred over the tag alternative at a
`<`. -/
def childrenExecAux : List Char → Nat → Option ChMatch
  | [], _ => none
  | c :: rest, pos =>
    if c == '\r' || c == '\n' then
      some ⟨pos, pos + 1 + countWhile jsIsSpace rest, .newline⟩
    else if c == '<' then
      if rest.take 3 == ['!', '-', '-'] then
        match findCloseComment (rest.drop 3) with
        | some k => some ⟨pos, pos + 4 + k + 3, .comment⟩
        | none => some ⟨pos, pos + 1 + rest.length, .comment⟩
      else
        let w1 := countWhile jsIsSpace rest
        let r1 := rest.drop w1
        let sl := min 2 (countWhile (fun ch => ch == '/') r1)
        let r2 := r1.drop sl
        let w2 := countWhile jsIsSpace r2
        let name := (r2.drop w2).takeWhile isIdentChar
        some ⟨pos, pos + 1 + w1 + sl + w2 + name.length, .tag sl name⟩
    else childrenExecAux rest (pos + 1)

/-- `CHILDREN_RE.exec` with `lastIndex = i`. -/
def childrenExec (span : List Char) (i : Nat) : Option ChMatch :=
  childrenExecAux (span.drop i) i

/-- Result kind of a `PROPS_RE` match: group 1 (tag end, self-closing when it
starts with a slash), group 2 (spread marker), or groups 3–5 (prop name,
equals sign, quoted value). -/
inductive PrKind where
  | tagEnd (selfClose : Bool)
  | spread
  | prop (name : List Char) (equals : Bool) (str : Option (List Char))

/-- Number of characters matched by the lazy quoted-string body
`(\\q|[\S\s])*?(?:q|$)` after the opening quote `q`: a backslash immediately
before `q` is consumed together with it, and end of input closes the
string. -/
def quoteStringLen (q : Char) : List Char → Nat
  | [] => 0
  | [c] => if c == q then 1 else 1
  | c :: c2 :: rest =>
    if c == q then 1
    else if c == '\\' && c2 == q then 2 + quoteStringLen q rest
    else 1 + quoteStringLen q (c2 :: rest)

/-- Attempt of the `PROPS_RE` alternatives
`(\/?\s*>)|(\.\.\.\s*)|([-_$\w]+\s*=?\s*(?:"...."|'....')?)` at the suffix
starting at absolute position `pos`; returns the match end and kind. -/
def propsAltAt : List Char → Nat → Option (Nat × PrKind)
  | [], _ => none
  | c :: rest, pos =>
    if c == '>' then
      some (pos + 1, .tagEnd false)
    else if c == '/' then
      let w := countWhile jsIsSpace rest
      match rest.drop w with
      | '>' :: _ => some (pos + 1 + w + 1, .tagEnd true)
      | _ => none
    else if c == '.' && rest.take 2 == ['.', '.'] then
      some (pos + 3 + countWhile jsIsSpace (rest.drop 2), .spread)
    else if isIdentChar c then
      let name := (c :: rest).takeWhile isIdentChar
      let after := (c :: rest).drop name.length
      let w1 := countWhile jsIsSpace after
      let r1 := after.drop w1
      let eq1 : Bool := match r1 with
        | '=' :: _ => true
        | _ => false
      let r2 := if eq1 then r1.drop 1 else r1
      let w2 := countWhile jsIsSpace r2
      let base := pos + name.length + w1 + (if eq1 then 1 else 0) + w2
      match r2.drop w2 with
      | '"' :: t =>
        let n := quoteStringLen '"' t
        some (base + 1 + n, .prop name eq1 (some ('"' :: t.take n)))
      | '\'' :: t =>
        let n := quoteStringLen '\'' t
        some (base + 1 + n, .prop name eq1 (some ('\'' :: t.take n)))
      | _ => some (base, .prop name eq1 none)
    else none

/-- `PROPS_RE.exec` with `lastIndex = i`: the earliest position where one of
the alternatives (after the leading `\s*`) matches; returns that position,
the match end, and the kind. -/
def propsExecAux : List Char → Nat → Option (Nat × Nat × PrKind)
  | [], _ => none
  | c :: rest, pos =>
    match propsAltAt (c :: rest) pos with
    | some (stop, k) => some (pos, stop, k)
    | none => propsExecAux rest (pos + 1)

def propsExec (span : List Char) (i : Nat) : Option (Nat × Nat × PrKind) :=
  propsExecAux (span.drop i) i

/-- `CLOSING_TAG_RE = />/g`: absolute position of the first `>` at or after
`pos` in the given suffix. -/
def findGtAux : List Char → Nat → Option Nat
  | [], _ => none
  | c :: rest, pos =>
    if c == '>' then some pos else findGtAux rest (pos + 1)

def findGt (span : List Char) (i : Nat) : Option Nat :=
  findGtAux (span.drop i) i

/-- `CLOSING_SINGLE_QUOTE_RE = /[^\\]?'/g` (and its double-quote twin):
returns the end of the earliest match.  At each position the regex first
tries to consume one non-backslash character followed by the quote, then the
quote alone. -/
def quoteExecAux (q : Char) : List Char → Nat → Option Nat
  | [], _ => none
  | [c], pos => if c == q then some (pos + 1) else none
  | c :: c2 :: rest, pos =>
    if c != '\\' && c2 == q then some (pos + 2)
    else if c == q then some (pos + 1)
    else quoteExecAux q (c2 :: rest) (pos + 1)

def quoteExec (q : Char) (span : List Char) (i : Nat) : Option Nat :=
  quoteExecAux q (span.drop i) i

/-- The `CLOSING_COMMENT_RE` regexp (a global search for `-->`): end of the
earliest `-->` at or after `i`. -/
def commentExec (span : List Char) (i : Nat) : Option Nat :=
  (findCloseComment (span.drop i)).map (fun k => i + k + 3)

/-- `current.children.push(node)`. -/
def pushChild (st : PState) (n : PNode) : PState :=
  { st with elem := { st.elem with children := st.elem.children ++ [n] } }

/-- Popping the stack after a closing marker or self-closing tag: the current
element becomes a finished child of the popped parent. -/
def popInto (st : PState) (top : Elem) (rest : List Elem) : PState :=
  { st with
    elem := { top with children := top.children ++ [st.elem.toNode] }
    stack := rest }

/-- The normalization applied to the text run before a `CHILDREN_RE` match
(source lines 141–156): strip leading whitespace at line start; before a
newline marker, drop the final backslash if the run ends in one, otherwise
strip trailing whitespace. -/
def normalizeBefore (lineStart escaped isNewline : Bool) (run : List Char) :
    List Char :=
  let run := if lineStart then run.dropWhile jsIsSpace else run
  if isNewline then
    if escaped then run.dropLast else dropTrailingWs run
  else run

/-- Emit the text run between `i` and the match index as a child `Value`
(skipping empty runs). -/
def emitBefore (st : PState) (span : List Char) (i : Nat) (m : ChMatch) :
    PState :=
  if i < m.index then
    let isNewline : Bool := match m.kind with
      | .newline => true
      | _ => false
    let escaped : Bool := span.get? (m.index - 1) == some '\\'
    let before := normalizeBefore st.lineStart escaped isNewline
      (slice span i m.index)
    if before.isEmpty then st
    else pushChild st (.value (.str (String.mk before)))
  else st

/-- Emission of the text after the last match in a span (source lines
207–218): trailing whitespace is stripped unless an expression is
pending. -/
def emitAfter (st : PState) (span : List Char) (i : Nat) : PState :=
  if i < span.length then
    let after := span.drop i
    let after := if ¬ st.expressing then dropTrailingWs after else after
    if after.isEmpty then st
    else pushChild st (.value (.str (String.mk after)))
  else st

/-- The push of a pending expression at the end of a span in Children mode
(source lines 220–224). -/
def finishChildren (st : PState) (stop : Nat) (span : List Char)
    (exprVal : JSValue) : PState × Nat :=
  if st.expressing ∧ stop = span.length then
    ({ pushChild st (.value exprVal) with
       lineStart := false
       expressing := false }, stop)
  else (st, stop)

/-- The closing-marker logic of Children mode (source lines 179–193): an
empty stack is an unmatched closing tag; a single slash whose identifier
differs from the current tag is a mismatched closing tag; `//` always
closes. -/
def closingStep (st : PState) (slashes : Nat) (tagv : JSValue) :
    Except PErr PState :=
  match st.stack with
  | [] => .error (.unmatchedClosingTag (getTagDisplay tagv))
  | top :: rest =>
    if slashes ≠ 2 ∧ ¬ jsStrictEq st.elem.tag tagv then
      .error (.mismatchedClosingTag (getTagDisplay tagv)
        (getTagDisplay st.elem.tag))
    else
      .ok { popInto st top rest with matcher := .closingTag }

/-- One `CHILDREN_RE` step of the scanning loop (source lines 137–226). -/
def handleChildren (st : PState) (span : List Char) (i : Nat)
    (exprVal : JSValue) : Except PErr (PState × Nat) :=
  match childrenExec span i with
  | some m =>
    let st := emitBefore st span i m
    let st := { st with lineStart := match m.kind with
      | .newline => true
      | _ => false }
    match m.kind with
    | .newline => .ok (finishChildren st m.stop span exprVal)
    | .comment =>
      let st := if m.stop = span.length then
          { st with matcher := .closingComment, expressing := false }
        else st
      .ok (finishChildren st m.stop span exprVal)
    | .tag slashes name =>
      let subst : Bool := st.expressing && decide (m.stop = span.length)
      let tagv : JSValue := if subst then exprVal else .str (String.mk name)
      let st := if subst then { st with expressing := false } else st
      if slashes ≠ 0 then
        match closingStep st slashes tagv with
        | .error e => .error e
        | .ok st => .ok (finishChildren st m.stop span exprVal)
      else
        let st := { st with
          stack := st.elem :: st.stack
          elem := ⟨tagv, none, []⟩
          matcher := .props }
        .ok (finishChildren st m.stop span exprVal)
  | none =>
    .ok (finishChildren (emitAfter st span i) span.length span exprVal)

/-- `current.props = {...current.props, ...{[name]: value}}`. -/
def setProp (st : PState) (name : List Char) (v : JSValue) : PState :=
  { st with elem := { st.elem with
      props := some (objAssign (st.elem.props.getD []) (String.mk name) v) } }

/-- The push of a pending expression after a tag-end marker in Props mode
(source lines 244–247). -/
def propsEndFinish (st : PState) (stop : Nat) (span : List Char)
    (exprVal : JSValue) : PState × Nat :=
  if st.expressing ∧ stop = span.length then
    ({ pushChild st (.value exprVal) with expressing := false }, stop)
  else (st, stop)

/-- One `PROPS_RE` step of the scanning loop (source lines 227–306). -/
def handleProps (st : PState) (span : List Char) (i : Nat)
    (exprVal : JSValue) : Except PErr (PState × Nat) :=
  match propsExec span i with
  | some (p, stop, kind) =>
    if ¬ (slice span i p).all jsIsSpace then
      .error (.unexpectedText (String.mk (trimChars (slice span i p))))
    else
      match kind with
      | .tagEnd selfClose =>
        if selfClose then
          match st.stack with
          | [] => .error .stackUnderflow
          | top :: rest =>
            let st := { popInto st top rest with matcher := .children }
            .ok (propsEndFinish st stop span exprVal)
        else
          let st := { st with matcher := .children }
          .ok (propsEndFinish st stop span exprVal)
      | .spread =>
        if st.expressing ∧ stop = span.length then
          .ok ({ st with
            elem := { st.elem with
              props := some (spreadMerge st.elem.props exprVal) }
            expressing := false }, stop)
        else
          .error (.missingSpreadExpression (getTagDisplay st.elem.tag))
      | .prop name equals strOpt =>
        match strOpt with
        | none =>
          if ¬ equals then
            .ok (setProp st name (.bool true), stop)
          else if stop < span.length then
            .error (.unexpectedText
              (String.mk (trimChars (slice span stop (stop + 20)))))
          else if ¬ st.expressing then
            .error .expressionExpected
          else
            .ok ({ setProp st name exprVal with expressing := false }, stop)
        | some str =>
          if st.expressing ∧ stop = span.length then
            let quote := str.headD ' '
            let pv := str ++
              (if jsIsBool exprVal || jsIsNullish exprVal then []
               else (jsToString exprVal).data)
            .ok ({ st with
              propName := name
              propValue := pv
              matcher := if quote == '\'' then .singleQuote else .doubleQuote
              expressing := false }, stop)
          else
            .ok (setProp st name (.str (formatString str)), stop)
  | none =>
    if ¬ st.expressing then
      .error (.unexpectedText
        (String.mk (trimChars (slice span i (i + 20)))))
    else .ok (st, span.length)

/-- One `CLOSING_TAG_RE` step (source lines 307–323). -/
def handleClosingTag (st : PState) (span : List Char) (i : Nat) :
    Except PErr (PState × Nat) :=
  match findGt span i with
  | some idx =>
    if i < idx then
      .error (.unexpectedText (String.mk (trimChars (slice span i idx))))
    else .ok ({ st with matcher := .children }, idx + 1)
  | none =>
    if ¬ st.expressing then
      .error (.unexpectedText
        (String.mk (trimChars (slice span i (i + 20)))))
    else .ok (st, span.length)

/-- One closing-quote step (source lines 324–344).  Note that the
unconditional assignment at line 343 reassigns the accumulating prop on
every step, and that the end-of-span expression concatenation here checks
only `exp != null` (not `typeof exp !== "boolean"`). -/
def handleQuote (q : Char) (st : PState) (span : List Char) (i : Nat)
    (exprVal : JSValue) : Except PErr (PState × Nat) :=
  let r := quoteExec q span i
  let stop := r.getD span.length
  let st := match r with
    | some e =>
      { st with propValue := st.propValue ++ slice span i e
                matcher := .props }
    | none => { st with propValue := st.propValue ++ span.drop i }
  let st := if st.expressing ∧ stop = span.length then
      { st with
        propValue := st.propValue ++
          (if jsIsNullish exprVal then [] else (jsToString exprVal).data)
        expressing := false }
    else st
  .ok ({ st with elem := { st.elem with
      props := some (objAssign (st.elem.props.getD [])
        (String.mk st.propName) (.str (formatString st.propValue))) } }, stop)

/-- One `CLOSING_COMMENT_RE` step (source lines 345–355). -/
def handleComment (st : PState) (span : List Char) (i : Nat) :
    Except PErr (PState × Nat) :=
  match commentExec span i with
  | some stop => .ok ({ st with matcher := .children }, stop)
  | none =>
    if ¬ st.expressing then .error .missingCommentTerminator
    else .ok ({ st with expressing := false }, span.length)

/-- One iteration of the inner scanning loop: run the active matcher at
position `i`. -/
def stepOnce (st : PState) (span : List Char) (i : Nat) (exprVal : JSValue) :
    Except PErr (PState × Nat) :=
  match st.matcher with
  | .children => handleChildren st span i exprVal
  | .props => handleProps st span i exprVal
  | .closingTag => handleClosingTag st span i
  | .singleQuote => handleQuote '\'' st span i exprVal
  | .doubleQuote => handleQuote '"' st span i exprVal
  | .closingComment => handleComment st span i

/-- The inner loop `for (let i = 0, end = i; i < span.length; i = end)`.
Every match consumes at least one character, so `span.length + 1` units of
fuel always suffice. -/
def innerLoop : Nat → PState → List Char → JSValue → Nat → Except PErr PState
  | 0, st, _, _, _ => .ok st
  | fuel + 1, st, span, exprVal, i =>
    if i < span.length then
      match stepOnce st span i exprVal with
      | .error e => .error e
      | .ok (st', stop) => innerLoop fuel st' span exprVal stop
    else .ok st

/-- The per-span initialization (source lines 107–130): set `expressing`
and apply the empty-span shortcut for consecutive expressions. -/
def spanStart (st : PState) (span : List Char) (exprVal : JSValue)
    (isLast : Bool) : PState :=
  let st := { st with expressing := !isLast }
  if st.expressing ∧ span.isEmpty then
    match st.matcher with
    | .children => { pushChild st (.value exprVal) with expressing := false }
    | .singleQuote | .doubleQuote =>
      { st with
        propValue := st.propValue ++
          (if jsIsBool exprVal || jsIsNullish exprVal then []
           else (jsToString exprVal).data)
        expressing := false }
    | _ => st
  else st

/-- Processing of one span (one iteration of the outer loop of `parse`),
including the empty-span shortcut for consecutive expressions and the final
unconsumed-expression check. -/
def runSpan (st : PState) (span : List Char) (exprVal : JSValue)
    (isLast : Bool) : Except PErr PState :=
  match innerLoop (span.length + 1) (spanStart st span exprVal isLast)
      span exprVal 0 with
  | .error e => .error e
  | .ok st' =>
    if st'.expressing then .error (.unexpectedExpression exprVal)
    else .ok st'

/-- The outer loop of `parse` over all spans, pairing span `s` with
`expressions[s]` (out-of-range reads yield `undefined`). -/
def runSpansAux : List (List Char) → List JSValue → PState →
    Except PErr PState
  | [], _, st => .ok st
  | span :: rest, exprs, st =>
    match runSpan st span (exprs.headD .undefined) rest.isEmpty with
    | .error e => .error e
    | .ok st' => runSpansAux rest exprs.tail st'

/-- The initial state of `parse`: an implicit root element with an empty
string tag, an empty stack, the `CHILDREN_RE` matcher and the line-start
flag set. -/
def initState : PState :=
  ⟨⟨.str "", none, []⟩, [], .children, true, [], [], false⟩

/-- `parse(spans, expressions)` from the source: run the scanner over every
span and fail with an unmatched opening tag when the stack is not empty at
end of input. -/
def parse (spans : List String) (exprs : List JSValue) : Except PErr Elem :=
  match runSpansAux (spans.map (·.data)) exprs initState with
  | .error e => .error e
  | .ok st =>
    if st.stack.isEmpty then .ok st.elem
    else .error (.unmatchedOpeningTag (getTagDisplay st.elem.tag))

/-- Output tree of the public `template` operation. -/
inductive CNode where
  | element (tag : JSValue) (props : Option (List (String × JSValue)))
      (children : List CNode)
  | value (v : JSValue)

/-- Modelled from the spec: the element constructor `c` of the absent
`crank.js` module, which per §6 "accepts (tag, props, children...) triples"
whose children are opaque values or nested triples. -/
def c (tag : JSValue) (props : Option (List (String × JSValue)))
    (children : List CNode) : CNode :=
  .element tag props children

mutual

/-- `createElementsFromParse` from the source: recursively convert the parse
tree, passing element children through and values as-is. -/
def createElementsFromParse : PNode → CNode
  | .element tag props children => c tag props (createChildList children)
  | .value v => .value v

def createChildList : List PNode → List CNode
  | [] => []
  | n :: rest => createElementsFromParse n :: createChildList rest

end

/-- The public `template` function (source lines 8–22): parse, then collapse
a childless result to `c("")` and unwrap a sole element child. -/
def template (spans : List String) (exprs : List JSValue) :
    Except PErr CNode :=
  match parse spans exprs with
  | .error e => .error e
  | .ok parsed =>
    match parsed.children with
    | [] => .ok (c (.str "") none [])
    | [.element tag props children] =>
      .ok (createElementsFromParse (.element tag props children))
    | _ => .ok (createElementsFromParse parsed.toNode)

/-! ### Supporting lemmas -/

theorem cons_stack_ne_nil (e : Elem) (l : List Elem) : e :: l ≠ [] := by
  intro h
  cases h

/-- Claim C1: a closing marker with an empty element stack raises
UnmatchedClosingTag; a single-slash closing tag whose identifier differs from
the top element's tag raises MismatchedClosingTag; a double-slash marker
always closes the current top element; and end of input with a non-empty
stack raises UnmatchedOpeningTag — together with the spec's three concrete
instances. -/
theorem claim1 :
    (∀ (st : PState) (slashes : Nat) (tagv : JSValue), st.stack = [] →
      closingStep st slashes tagv =
        .error (.unmatchedClosingTag (getTagDisplay tagv))) ∧
    (∀ (st : PState) (slashes : Nat) (tagv : JSValue) (top : Elem)
        (rest : List Elem), st.stack = top :: rest → slashes ≠ 2 →
      jsStrictEq st.elem.tag tagv = false →
      closingStep st slashes tagv =
        .error (.mismatchedClosingTag (getTagDisplay tagv)
          (getTagDisplay st.elem.tag))) ∧
    (∀ (st : PState) (tagv : JSValue) (top : Elem) (rest : List Elem),
      st.stack = top :: rest →
      closingStep st 2 tagv =
        .ok { popInto st top rest with matcher := .closingTag }) ∧
    (∀ (spans : List String) (exprs : List JSValue) (st : PState),
      runSpansAux (spans.map (·.data)) exprs initState = .ok st →
      st.stack ≠ [] →
      parse spans exprs =
        .error (.unmatchedOpeningTag (getTagDisplay st.elem.tag))) ∧
    parse ["<a></b>"] [] = .error (.mismatchedClosingTag "b" "a") ∧
    parse ["</a>"] [] = .error (.unmatchedClosingTag "a") ∧
    parse ["<a>"] [] = .error (.unmatchedOpeningTag "a") := by
  refine ⟨?_, ?_, ?_, ?_, rfl, rfl, rfl⟩
  · intro st slashes tagv h
    simp [closingStep, h]
  · intro st slashes tagv top rest hstack hsl heq
    simp [closingStep, hstack, hsl, heq]
  · intro st tagv top rest hstack
    simp [closingStep, hstack]
  · intro spans exprs st hrun hne
    simp only [parse, hrun]
    rw [if_neg]
    simp only [List.isEmpty_iff]
    exact hne

/-- Witness for C1: the general conjuncts applied at concrete states and
inputs. -/
theorem claim1_witness :
    closingStep initState 1 (.str "a") =
      .error (.unmatchedClosingTag "a") ∧
    closingStep ⟨⟨.str "a", none, []⟩, [⟨.str "", none, []⟩], .children,
        false, [], [], false⟩ 1 (.str "b") =
      .error (.mismatchedClosingTag "b" "a") ∧
    closingStep ⟨⟨.str "a", none, []⟩, [⟨.str "", none, []⟩], .children,
        false, [], [], false⟩ 2 (.str "zzz") =
      .ok { popInto ⟨⟨.str "a", none, []⟩, [⟨.str "", none, []⟩], .children,
        false, [], [], false⟩ ⟨.str "", none, []⟩ [] with
          matcher := .closingTag } ∧
    parse ["<a>"] [] = .error (.unmatchedOpeningTag "a") := by
  refine ⟨claim1.1 _ 1 _ rfl, claim1.2.1 _ 1 _ ⟨.str "", none, []⟩ [] rfl
    (by decide) rfl, claim1.2.2.1 _ _ ⟨.str "", none, []⟩ [] rfl,
    claim1.2.2.2.1 ["<a>"] []
      ⟨⟨.str "a", none, []⟩, [⟨.str "", none, []⟩], .children, false, [], [],
        false⟩ rfl (cons_stack_ne_nil _ _)⟩

/-- Claim C4: in Props mode an attribute name without `=` becomes a
boolean-true prop; a name followed by `=` and no quoted string must be
satisfied by exactly one pending substitution value at the end of the
fragment, failing with ExpressionExpected when none is pending and with
UnexpectedText when unconsumed text follows the `=`. -/
theorem claim4 :
    (∀ (st : PState) (span : List Char) (i : Nat) (exprVal : JSValue)
        (p stop : Nat) (name : List Char),
      propsExec span i = some (p, stop, .prop name false none) →
      (slice span i p).all jsIsSpace = true →
      handleProps st span i exprVal =
        .ok (setProp st name (.bool true), stop)) ∧
    (∀ (st : PState) (span : List Char) (i : Nat) (exprVal : JSValue)
        (p stop : Nat) (name : List Char),
      propsExec span i = some (p, stop, .prop name true none) →
      (slice span i p).all jsIsSpace = true →
      stop = span.length → st.expressing = true →
      handleProps st span i exprVal =
        .ok ({ setProp st name exprVal with expressing := false }, stop)) ∧
    (∀ (st : PState) (span : List Char) (i : Nat) (exprVal : JSValue)
        (p stop : Nat) (name : List Char),
      propsExec span i = some (p, stop, .prop name true none) →
      (slice span i p).all jsIsSpace = true →
      stop = span.length → st.expressing = false →
      handleProps st span i exprVal = .error .expressionExpected) ∧
    (∀ (st : PState) (span : List Char) (i : Nat) (exprVal : JSValue)
        (p stop : Nat) (name : List Char),
      propsExec span i = some (p, stop, .prop name true none) →
      (slice span i p).all jsIsSpace = true →
      stop < span.length →
      handleProps st span i exprVal = .error (.unexpectedText
        (String.mk (trimChars (slice span stop (stop + 20)))))) ∧
    parse ["<p a/>"] [] =
      .ok ⟨.str "", none,
        [.element (.str "p") (some [("a", .bool true)]) []]⟩ ∧
    parse ["<p a=", "/>"] [.num 5] =
      .ok ⟨.str "", none,
        [.element (.str "p") (some [("a", .num 5)]) []]⟩ ∧
    parse ["<p a="] [] = .error .expressionExpected ∧
    parse ["<p a=b/>"] [] = .error (.unexpectedText "b/>") := by
  refine ⟨?_, ?_, ?_, ?_, rfl, rfl, rfl, rfl⟩
  · intro st span i exprVal p stop name hexec hws
    simp [handleProps, hexec, hws]
  · intro st span i exprVal p stop name hexec hws hstop hexp
    simp [handleProps, hexec, hws, hstop, hexp]
  · intro st span i exprVal p stop name hexec hws hstop hexp
    simp [handleProps, hexec, hws, hstop, hexp]
  · intro st span i exprVal p stop name hexec hws hstop
    simp [handleProps, hexec, hws, hstop]

/-- Witness for C4: the boolean-flag conjunct applied to the props fragment
of `<p a/>`, and the expression-consuming conjunct applied to `<p a=` with a
pending value. -/
theorem claim4_witness :
    handleProps ⟨⟨.str "p", none, []⟩, [⟨.str "", none, []⟩], .props, false,
        [], [], false⟩ "<p a/>".data 2 .undefined =
      .ok (setProp ⟨⟨.str "p", none, []⟩, [⟨.str "", none, []⟩], .props,
        false, [], [], false⟩ ['a'] (.bool true), 4) ∧
    handleProps ⟨⟨.str "p", none, []⟩, [⟨.str "", none, []⟩], .props, false,
        [], [], true⟩ "<p a=".data 2 (.num 5) =
      .ok ({ setProp ⟨⟨.str "p", none, []⟩, [⟨.str "", none, []⟩], .props,
        false, [], [], true⟩ ['a'] (.num 5) with expressing := false }, 5) ∧
    handleProps ⟨⟨.str "p", none, []⟩, [⟨.str "", none, []⟩], .props, false,
        [], [], false⟩ "<p a=".data 2 .undefined =
      .error .expressionExpected ∧
    handleProps ⟨⟨.str "p", none, []⟩, [⟨.str "", none, []⟩], .props, false,
        [], [], false⟩ "<p a=b/>".data 2 .undefined =
      .error (.unexpectedText "b/>") :=
  ⟨claim4.1 _ _ 2 _ 3 4 ['a'] rfl rfl,
   claim4.2.1 _ _ 2 _ 3 5 ['a'] rfl rfl rfl rfl,
   claim4.2.2.1 _ _ 2 _ 3 5 ['a'] rfl rfl rfl rfl,
   claim4.2.2.2.1 _ _ 2 _ 3 5 ['a'] rfl rfl (by decide)⟩

theorem lookup_objAssign (props : List (String × JSValue)) (k : String)
    (v : JSValue) : (objAssign props k v).lookup k = some v := by
  unfold objAssign
  by_cases h : props.any (fun kv => kv.1 == k) = true
  · rw [if_pos h]
    induction props with
    | nil => simp at h
    | cons kv rest ih =>
      by_cases hk : kv.1 = k
      · have hb : (kv.1 == k) = true := beq_iff_eq.mpr hk
        rw [List.map_cons, if_pos hb]
        show List.lookup k ((k, v) :: _) = some v
        simp [List.lookup]
      · have hb : (kv.1 == k) = false := beq_eq_false_iff_ne.mpr hk
        rw [List.map_cons, if_neg (by simp [hb])]
        have hkk : (k == kv.1) = false :=
          beq_eq_false_iff_ne.mpr (fun he => hk he.symm)
        show List.lookup k (kv :: _) = some v
        rw [show List.lookup k (kv :: List.map (fun kv =>
            if kv.1 == k then (k, v) else kv) rest) =
          List.lookup k (List.map (fun kv =>
            if kv.1 == k then (k, v) else kv) rest) from by
          cases kv; simp [List.lookup, hkk]]
        apply ih
        rw [List.any_cons, hb, Bool.false_or] at h
        exact h
  · rw [if_neg h]
    have h2 : props.any (fun kv => kv.1 == k) = false :=
      Bool.not_eq_true _ |>.mp h
    clear h
    induction props with
    | nil => simp [List.lookup]
    | cons kv rest ih =>
      rw [List.any_cons, Bool.or_eq_false_iff] at h2
      have hkk : (k == kv.1) = false :=
        beq_eq_false_iff_ne.mpr
          (fun he => by
            have hne := beq_eq_false_iff_ne.mp h2.1
            exact hne he.symm)
      rw [List.cons_append]
      rw [show List.lookup k (kv :: (rest ++ [(k, v)])) =
        List.lookup k (rest ++ [(k, v)]) from by
          cases kv; simp [List.lookup, hkk]]
      exact ih h2.2

/-- Claim C5: a spread marker not immediately satisfied by a pending
substitution value at the end of the fragment raises
MissingSpreadExpression; otherwise the value's pairs are shallow-merged into
the current props with later pairs overwriting earlier ones of the same
key. -/
theorem claim5 :
    (∀ (st : PState) (span : List Char) (i : Nat) (exprVal : JSValue)
        (p stop : Nat),
      propsExec span i = some (p, stop, .spread) →
      (slice span i p).all jsIsSpace = true →
      ¬ (st.expressing = true ∧ stop = span.length) →
      handleProps st span i exprVal =
        .error (.missingSpreadExpression (getTagDisplay st.elem.tag))) ∧
    (∀ (st : PState) (span : List Char) (i : Nat) (exprVal : JSValue)
        (p stop : Nat),
      propsExec span i = some (p, stop, .spread) →
      (slice span i p).all jsIsSpace = true →
      st.expressing = true → stop = span.length →
      handleProps st span i exprVal = .ok ({ st with
        elem := { st.elem with
          props := some (spreadMerge st.elem.props exprVal) }
        expressing := false }, stop)) ∧
    (∀ (props : Option (List (String × JSValue)))
        (fs : List (String × JSValue)) (k : String) (v : JSValue),
      (spreadMerge props (.obj (fs ++ [(k, v)]))).lookup k = some v) ∧
    parse ["<p ...x/>"] [] = .error (.missingSpreadExpression "p") ∧
    parse ["<p a=\"1\" ...", "/>"]
        [.obj [("a", .str "2"), ("b", .num 3)]] =
      .ok ⟨.str "", none,
        [.element (.str "p")
          (some [("a", .str "2"), ("b", .num 3)]) []]⟩ := by
  refine ⟨?_, ?_, ?_, rfl, rfl⟩
  · intro st span i exprVal p stop hexec hws hno
    simp only [handleProps, hexec, hws, Bool.not_eq_true, Bool.true_eq_false]
    rw [if_neg (by simp), if_neg hno]
  · intro st span i exprVal p stop hexec hws hexp hstop
    simp [handleProps, hexec, hws, hexp, hstop]
  · intro props fs k v
    simp only [spreadMerge, jsSpreadFields, List.foldl_append, List.foldl_cons,
      List.foldl_nil]
    exact lookup_objAssign _ k v

/-- Witness for C5: the error conjunct applied to the spread in
`<p ...x/>`, the merge conjunct applied to a pending object value, and the
overwrite conjunct at a concrete key. -/
theorem claim5_witness :
    handleProps ⟨⟨.str "p", none, []⟩, [⟨.str "", none, []⟩], .props, false,
        [], [], false⟩ "<p ...x/>".data 2 .undefined =
      .error (.missingSpreadExpression "p") ∧
    handleProps ⟨⟨.str "p", none, []⟩, [⟨.str "", none, []⟩], .props, false,
        [], [], true⟩ "<p ...".data 2 (.obj [("a", .num 1)]) =
      .ok (⟨⟨.str "p", some (spreadMerge none (.obj [("a", .num 1)])), []⟩,
        [⟨.str "", none, []⟩], .props, false, [], [], false⟩, 6) ∧
    (spreadMerge none
        (.obj ([("a", .num 1)] ++ [("a", .num 2)]))).lookup "a" =
      some (.num 2) :=
  ⟨claim5.1 ⟨⟨.str "p", none, []⟩, [⟨.str "", none, []⟩], .props, false,
      [], [], false⟩ "<p ...x/>".data 2 .undefined 3 6 rfl rfl (by simp),
   claim5.2.1 ⟨⟨.str "p", none, []⟩, [⟨.str "", none, []⟩], .props, false,
      [], [], true⟩ "<p ...".data 2 (.obj [("a", .num 1)]) 3 6 rfl rfl rfl
      rfl,
   claim5.2.2.1 none [("a", .num 1)] "a" (.num 2)⟩

/-- Counterexample to claim C9: whitespace between a closing tag's
identifier and the `>` does raise UnexpectedText (with an empty display
text), contrary to the claim that whitespace alone is consumed without
error. -/
theorem claim9_counterexample :
    parse ["<a></a >"] [] = .error (.unexpectedText "") := rfl

/-- Claim C9 (amended): in ClosingTagTail mode the `>` must immediately
follow the position where the closing-tag match ended; any intervening
content — non-whitespace or whitespace alike — raises UnexpectedText
(whitespace is tolerated only where the children-mode tag pattern itself
consumes it, before the identifier, as in `<//  >`). -/
theorem claim9 :
    (∀ (st : PState) (span : List Char) (i j : Nat),
      findGt span i = some j → i < j →
      handleClosingTag st span i =
        .error (.unexpectedText (String.mk (trimChars (slice span i j))))) ∧
    (∀ (st : PState) (span : List Char) (i : Nat),
      findGt span i = some i →
      handleClosingTag st span i =
        .ok ({ st with matcher := .children }, i + 1)) ∧
    (∀ (st : PState) (span : List Char) (i : Nat),
      findGt span i = none → st.expressing = false →
      handleClosingTag st span i = .error (.unexpectedText
        (String.mk (trimChars (slice span i (i + 20)))))) ∧
    parse ["<a></a >"] [] = .error (.unexpectedText "") ∧
    parse ["<a></a b>"] [] = .error (.unexpectedText "b") ∧
    parse ["<a><//  >"] [] =
      .ok ⟨.str "", none, [.element (.str "a") none []]⟩ := by
  refine ⟨?_, ?_, ?_, rfl, rfl, rfl⟩
  · intro st span i j hfind hij
    simp [handleClosingTag, hfind, hij]
  · intro st span i hfind
    simp [handleClosingTag, hfind]
  · intro st span i hfind hexp
    simp [handleClosingTag, hfind, hexp]

/-- Witness for C9: the general conjuncts applied to the two closing-tag
tails of `<a></a >` and `<a></a>`. -/
theorem claim9_witness :
    handleClosingTag ⟨⟨.str "", none, [.element (.str "a") none []]⟩, [],
        .closingTag, false, [], [], false⟩ "<a></a >".data 6 =
      .error (.unexpectedText "") ∧
    handleClosingTag ⟨⟨.str "", none, [.element (.str "a") none []]⟩, [],
        .closingTag, false, [], [], false⟩ "<a></a>".data 6 =
      .ok (⟨⟨.str "", none, [.element (.str "a") none []]⟩, [],
        .children, false, [], [], false⟩, 7) ∧
    handleClosingTag ⟨⟨.str "", none, [.element (.str "a") none []]⟩, [],
        .closingTag, false, [], [], false⟩ "<a></a".data 6 =
      .error (.unexpectedText "") :=
  ⟨claim9.1 _ "<a></a >".data 6 7 rfl (by decide),
   claim9.2.1 _ "<a></a>".data 6 rfl,
   claim9.2.2.1 _ "<a></a".data 6 rfl rfl⟩

/-- Counterexample to claim C8: here the substitution value inside the
unterminated comment was already consumed (fragment `"<!-- "`, then value,
then fragment `" x"`), so no substitution is pending with unresolvable
input, yet parse raises MissingCommentTerminator. -/
theorem claim8_counterexample :
    parse ["<!-- ", " x"] [.num 1] = .error .missingCommentTerminator := rfl

/-- Claim C8 (amended): an unterminated comment is tolerated at end of input
while the scanner never leaves the comment in ClosingComment mode over a
nonempty final fragment; once a substitution inside the comment has moved
the scanner into ClosingComment mode, a nonempty final fragment without
`-->` raises MissingCommentTerminator (even though the substitution itself
was already consumed), while an empty final fragment is still tolerated. -/
theorem claim8 :
    (∀ (st : PState) (span : List Char) (i : Nat),
      commentExec span i = none → st.expressing = false →
      handleComment st span i = .error .missingCommentTerminator) ∧
    (∀ (st : PState) (span : List Char) (i : Nat),
      commentExec span i = none → st.expressing = true →
      handleComment st span i =
        .ok ({ st with expressing := false }, span.length)) ∧
    parse ["<!-- ", " x"] [.num 1] = .error .missingCommentTerminator ∧
    parse ["<!-- x"] [] = .ok ⟨.str "", none, []⟩ ∧
    parse ["<!-- ", ""] [.num 1] = .ok ⟨.str "", none, []⟩ ∧
    parse ["<!-- ", " x -->ok"] [.num 1] =
      .ok ⟨.str "", none, [.value (.str "ok")]⟩ := by
  refine ⟨?_, ?_, rfl, rfl, rfl, rfl⟩
  · intro st span i hexec hexp
    simp [handleComment, hexec, hexp]
  · intro st span i hexec hexp
    simp [handleComment, hexec, hexp]

/-- Witness for C8: the two general conjuncts applied to concrete
ClosingComment states. -/
theorem claim8_witness :
    handleComment ⟨⟨.str "", none, []⟩, [], .closingComment, false, [], [],
        false⟩ " x".data 0 = .error .missingCommentTerminator ∧
    handleComment ⟨⟨.str "", none, []⟩, [], .closingComment, false, [], [],
        true⟩ " x".data 0 =
      .ok (⟨⟨.str "", none, []⟩, [], .closingComment, false, [], [],
        false⟩, 2) :=
  ⟨claim8.1 _ " x".data 0 rfl rfl, claim8.2.1 _ " x".data 0 rfl rfl⟩

/-- Counterexample to claim C7: when the sole child of the parse result is a
bare substitution value, the public operation does not return the value
itself — it returns the synthetic empty-tag wrapper element with that value
as its sole child. -/
theorem claim7_counterexample :
    template ["", ""] [.str "hi"] =
      .ok (.element (.str "") none [.value (.str "hi")]) ∧
    (CNode.element (.str "") none [.value (.str "hi")]) ≠
      .value (.str "hi") := by
  constructor
  · have hp : parse ["", ""] [.str "hi"] =
        .ok ⟨.str "", none, [.value (.str "hi")]⟩ := rfl
    simp [template, hp, Elem.toNode, createElementsFromParse,
      createChildList, c]
  · intro h
    exact CNode.noConfusion h

/-- Claim C7 (amended): a parse result with zero children collapses to the
empty element `c("")`; a sole element child replaces the synthetic wrapper;
a sole bare substitution-value child is kept as the single child of the
synthetic empty-tag wrapper, which is not discarded (only element children
discard it). -/
theorem claim7 :
    (∀ (spans : List String) (exprs : List JSValue) (parsed : Elem),
      parse spans exprs = .ok parsed → parsed.children = [] →
      template spans exprs = .ok (c (.str "") none [])) ∧
    (∀ (spans : List String) (exprs : List JSValue) (parsed : Elem)
        (tag : JSValue) (props : Option (List (String × JSValue)))
        (children : List PNode),
      parse spans exprs = .ok parsed →
      parsed.children = [.element tag props children] →
      template spans exprs =
        .ok (createElementsFromParse (.element tag props children))) ∧
    (∀ (spans : List String) (exprs : List JSValue) (parsed : Elem)
        (v : JSValue),
      parse spans exprs = .ok parsed → parsed.children = [.value v] →
      template spans exprs =
        .ok (.element parsed.tag parsed.props [.value v])) ∧
    template ["", ""] [.str "hi"] =
      .ok (.element (.str "") none [.value (.str "hi")]) ∧
    template ["<p>x</p>"] [] =
      .ok (.element (.str "p") none [.value (.str "x")]) ∧
    template [""] [] = .ok (.element (.str "") none []) := by
  have hp1 : parse ["", ""] [.str "hi"] =
      .ok ⟨.str "", none, [.value (.str "hi")]⟩ := rfl
  have hp2 : parse ["<p>x</p>"] [] =
      .ok ⟨.str "", none, [.element (.str "p") none [.value (.str "x")]]⟩ :=
    rfl
  have hp3 : parse [""] [] = .ok ⟨.str "", none, []⟩ := rfl
  refine ⟨?_, ?_, ?_, ?_, ?_, ?_⟩
  · intro spans exprs parsed hp hc
    simp [template, hp, hc]
  · intro spans exprs parsed tag props children hp hc
    simp [template, hp, hc]
  · intro spans exprs parsed v hp hc
    simp [template, hp, hc, Elem.toNode, createElementsFromParse,
      createChildList, c]
  · simp [template, hp1, Elem.toNode, createElementsFromParse,
      createChildList, c]
  · simp [template, hp2, Elem.toNode, createElementsFromParse,
      createChildList, c]
  · simp [template, hp3, c]

/-- Witness for C7: the three post-processing conjuncts applied to concrete
parses. -/
theorem claim7_witness :
    template [""] [] = .ok (c (.str "") none []) ∧
    template ["<p>x</p>"] [] =
      .ok (createElementsFromParse
        (.element (.str "p") none [.value (.str "x")])) ∧
    template ["", ""] [.str "hi"] =
      .ok (.element (.str "") none [.value (.str "hi")]) :=
  ⟨claim7.1 [""] [] ⟨.str "", none, []⟩ rfl rfl,
   claim7.2.1 ["<p>x</p>"] []
     ⟨.str "", none, [.element (.str "p") none [.value (.str "x")]]⟩
     (.str "p") none [.value (.str "x")] rfl rfl,
   claim7.2.2.1 ["", ""] [.str "hi"] ⟨.str "", none, [.value (.str "hi")]⟩
     (.str "hi") rfl rfl⟩

/-- Counterexample to claim C6: a boolean substitution value reached at the
end of a fragment while the scanner is already inside a quoted attribute
value is stringified into the attribute (the line-336 path checks only
`exp != null`), so `true` contributes the text `true` instead of
nothing. -/
theorem claim6_counterexample :
    parse ["<p a=\"", "x", "\"/>"] [.num 1, .bool true] =
      .ok ⟨.str "", none,
        [.element (.str "p") (some [("a", .str "1xtrue")]) []]⟩ ∧
    JSValue.str "1xtrue" ≠ .str "1x" := by
  refine ⟨rfl, ?_⟩
  intro h
  injection h with h
  exact absurd h (by decide)

/-- Claim C6 (amended): for substitution values inside a quoted attribute
value, null/undefined contribute nothing; any other value that arrives at a
fragment end while already inside the quote is stringified — booleans
included, which contribute "true"/"false" in that path; booleans contribute
nothing only on the quote-entry path (a pending value right after the
opening fragment of the string); on close the accumulated raw text is
unescaped and assigned as the attribute value and the scanner returns to
Props mode. -/
theorem claim6 :
    (∀ (q : Char) (st : PState) (span : List Char) (i : Nat) (v : JSValue),
      jsIsNullish v = true → st.expressing = true →
      quoteExec q span i = none →
      handleQuote q st span i v = .ok ({ st with
        elem := { st.elem with props := some (objAssign
          (st.elem.props.getD []) (String.mk st.propName)
          (.str (formatString (st.propValue ++ span.drop i)))) }
        propValue := st.propValue ++ span.drop i
        expressing := false }, span.length)) ∧
    (∀ (q : Char) (st : PState) (span : List Char) (i : Nat) (v : JSValue),
      jsIsNullish v = false → st.expressing = true →
      quoteExec q span i = none →
      handleQuote q st span i v = .ok ({ st with
        elem := { st.elem with props := some (objAssign
          (st.elem.props.getD []) (String.mk st.propName)
          (.str (formatString (st.propValue ++ span.drop i ++
            (jsToString v).data)))) }
        propValue := st.propValue ++ span.drop i ++ (jsToString v).data
        expressing := false }, span.length)) ∧
    (∀ (st : PState) (span : List Char) (i : Nat) (v : JSValue)
        (p stop : Nat) (name : List Char) (eqs : Bool) (str : List Char),
      propsExec span i = some (p, stop, .prop name eqs (some str)) →
      (slice span i p).all jsIsSpace = true →
      st.expressing = true → stop = span.length →
      (jsIsBool v || jsIsNullish v) = true →
      handleProps st span i v = .ok ({ st with
        propName := name
        propValue := str
        matcher := if str.headD ' ' == '\'' then .singleQuote
          else .doubleQuote
        expressing := false }, stop)) ∧
    (∀ (q : Char) (st : PState) (span : List Char) (i : Nat) (v : JSValue)
        (e : Nat),
      quoteExec q span i = some e → st.expressing = false →
      e < span.length →
      handleQuote q st span i v =
        .ok ({ st with
          propValue := st.propValue ++ slice span i e
          matcher := .props
          elem := { st.elem with props := some (objAssign
            (st.elem.props.getD []) (String.mk st.propName)
            (.str (formatString (st.propValue ++ slice span i e)))) } },
          e)) ∧
    parse ["<p a=\"", "x", "\"/>"] [.num 1, .null] =
      .ok ⟨.str "", none,
        [.element (.str "p") (some [("a", .str "1x")]) []]⟩ ∧
    parse ["<p a=\"", "\"/>"] [.bool true] =
      .ok ⟨.str "", none,
        [.element (.str "p") (some [("a", .str "")]) []]⟩ ∧
    parse ["<p a=\"", "\"/>"] [.str "v"] =
      .ok ⟨.str "", none,
        [.element (.str "p") (some [("a", .str "v")]) []]⟩ ∧
    parse ["<p a=\"q\\\"w\"/>"] [] =
      .ok ⟨.str "", none,
        [.element (.str "p") (some [("a", .str "q\"w")]) []]⟩ := by
  refine ⟨?_, ?_, ?_, ?_, rfl, rfl, rfl, rfl⟩
  · intro q st span i v hv he hq
    simp [handleQuote, hq, hv, he]
  · intro q st span i v hv he hq
    simp [handleQuote, hq, hv, he]
  · intro st span i v p stop name eqs str hexec hws he hstop hbn
    simp [handleProps, hexec, hws, he, hstop, hbn]
  · intro q st span i v e hq he hlt
    simp [handleQuote, hq, he, Nat.ne_of_lt hlt]

/-- Witness for C6: the four general conjuncts applied to the concrete
fragments of `<p a="` / `x` / `"/>`. -/
theorem claim6_witness :
    handleQuote '"' ⟨⟨.str "p", none, []⟩, [⟨.str "", none, []⟩],
        .doubleQuote, false, ['a'], ['"', '1'], true⟩ "x".data 0 .null =
      .ok (⟨⟨.str "p", some [("a", .str "1")], []⟩, [⟨.str "", none, []⟩],
        .doubleQuote, false, ['a'], ['"', '1', 'x'], false⟩, 1) ∧
    handleQuote '"' ⟨⟨.str "p", none, []⟩, [⟨.str "", none, []⟩],
        .doubleQuote, false, ['a'], ['"', '1'], true⟩ "x".data 0
        (.bool true) =
      .ok (⟨⟨.str "p", some [("a", .str "1xtru")], []⟩,
        [⟨.str "", none, []⟩], .doubleQuote, false, ['a'],
        "\"1xtrue".data, false⟩, 1) ∧
    handleProps ⟨⟨.str "p", none, []⟩, [⟨.str "", none, []⟩], .props,
        false, [], [], true⟩ "<p a=\"".data 2 (.bool true) =
      .ok (⟨⟨.str "p", none, []⟩, [⟨.str "", none, []⟩], .doubleQuote,
        false, ['a'], ['"'], false⟩, 6) ∧
    handleQuote '"' ⟨⟨.str "p", none, []⟩, [⟨.str "", none, []⟩],
        .doubleQuote, false, ['a'], "\"1xtrue".data, false⟩ "\"/>".data 0
        .undefined =
      .ok (⟨⟨.str "p", some [("a", .str "1xtrue")], []⟩,
        [⟨.str "", none, []⟩], .props, false, ['a'], "\"1xtrue\"".data,
        false⟩, 1) :=
  ⟨claim6.1 '"' ⟨⟨.str "p", none, []⟩, [⟨.str "", none, []⟩], .doubleQuote,
      false, ['a'], ['"', '1'], true⟩ "x".data 0 .null rfl rfl rfl,
   claim6.2.1 '"' ⟨⟨.str "p", none, []⟩, [⟨.str "", none, []⟩],
      .doubleQuote, false, ['a'], ['"', '1'], true⟩ "x".data 0 (.bool true)
      rfl rfl rfl,
   claim6.2.2.1 ⟨⟨.str "p", none, []⟩, [⟨.str "", none, []⟩], .props,
      false, [], [], true⟩ "<p a=\"".data 2 (.bool true) 3 6 ['a'] true
      ['"'] rfl rfl rfl rfl rfl,
   claim6.2.2.2.1 '"' ⟨⟨.str "p", none, []⟩, [⟨.str "", none, []⟩],
      .doubleQuote, false, ['a'], "\"1xtrue".data, false⟩ "\"/>".data 0
      .undefined 1 rfl rfl (by decide)⟩

theorem takeWhile_dropWhile_nil (p : Char → Bool) (l : List Char) :
    (l.dropWhile p).takeWhile p = [] := by
  induction l with
  | nil => rfl
  | cons a t ih =>
    by_cases h : p a
    · simpa [List.dropWhile_cons, h] using ih
    · simp [List.dropWhile_cons, h, List.takeWhile_cons]

theorem takeWhile_nil_of_isPrefixOf (p : Char → Bool) {l₁ l₂ : List Char}
    (h : l₁ <+: l₂) (h2 : l₂.takeWhile p = []) : l₁.takeWhile p = [] := by
  obtain ⟨t, rfl⟩ := h
  cases l₁ with
  | nil => rfl
  | cons a u =>
    rw [List.cons_append] at h2
    rw [List.takeWhile_cons] at h2 ⊢
    by_cases hp : p a
    · simp [hp] at h2
    · simp [hp]

theorem dropTrailingWs_isPrefixOf (l : List Char) : dropTrailingWs l <+: l := by
  have h := List.dropWhile_suffix (l := l.reverse) (p := jsIsSpace)
  rw [dropTrailingWs]
  refine List.reverse_suffix.mp ?_
  simpa using h

theorem takeWhile_nil_dropLast (p : Char → Bool) (l : List Char)
    (h : l.takeWhile p = []) : l.dropLast.takeWhile p = [] := by
  have hp := List.dropLast_prefix l
  exact takeWhile_nil_of_isPrefixOf p hp h

/-- Claim C3: in Children mode, a text run emitted with the line-start flag
set has its leading whitespace stripped; a run emitted before a newline
marker has its trailing whitespace stripped unless it ends in a backslash,
in which case only the backslash is removed and the surrounding whitespace
survives; and the two concrete whitespace laws of the spec hold. -/
theorem claim3 :
    (∀ (esc isNL : Bool) (run : List Char),
      (normalizeBefore true esc isNL run).takeWhile jsIsSpace = []) ∧
    (∀ (ls : Bool) (run : List Char),
      ((normalizeBefore ls false true run).reverse).takeWhile jsIsSpace
        = []) ∧
    (∀ run : List Char,
      normalizeBefore false true true (run ++ ['\\']) = run) ∧
    parse ["<p>\n  text\n</p>"] [] =
      .ok ⟨.str "", none,
        [.element (.str "p") none [.value (.str "text")]]⟩ ∧
    parse ["<p> \\\n text</p>"] [] =
      .ok ⟨.str "", none,
        [.element (.str "p") none
          [.value (.str " "), .value (.str "text")]]⟩ := by
  refine ⟨?_, ?_, ?_, rfl, rfl⟩
  · intro esc isNL run
    unfold normalizeBefore
    have h0 := takeWhile_dropWhile_nil jsIsSpace run
    cases isNL with
    | false => simpa using h0
    | true =>
      cases esc with
      | true => simpa using takeWhile_nil_dropLast _ _ h0
      | false =>
        simp only [if_true]
        exact takeWhile_nil_of_isPrefixOf _ (dropTrailingWs_isPrefixOf _) h0
  · intro ls run
    unfold normalizeBefore
    simp only [Bool.false_eq_true, if_false, if_true]
    rw [dropTrailingWs, List.reverse_reverse]
    exact takeWhile_dropWhile_nil _ _
  · intro run
    unfold normalizeBefore
    simp

theorem isIdentChar_ne {c d : Char} (h : isIdentChar c = true)
    (hd : isIdentChar d = false) : c ≠ d := by
  intro he
  rw [he, hd] at h
  cases h

theorem jsIsSpace_of_ident {c : Char} (h : isIdentChar c = true) :
    jsIsSpace c = false := by
  rw [← Bool.not_eq_true]
  intro hs
  simp only [isIdentChar, Bool.or_eq_true, Bool.and_eq_true,
    decide_eq_true_eq, beq_iff_eq] at h
  simp only [jsIsSpace, Bool.or_eq_true, Bool.and_eq_true,
    decide_eq_true_eq, beq_iff_eq] at hs
  omega

theorem takeWhile_append_of_all (p : Char → Bool) (l1 l2 : List Char)
    (h1 : ∀ a ∈ l1, p a = true) (h2 : l2.takeWhile p = []) :
    (l1 ++ l2).takeWhile p = l1 := by
  induction l1 with
  | nil => simpa using h2
  | cons a t ih =>
    rw [List.cons_append, List.takeWhile_cons, h1 a (by simp),
      ih (fun b hb => h1 b (by simp [hb]))]
    simp

theorem take3_ne_comment {c0 : Char} (l : List Char)
    (h : c0 ≠ '!') : ((c0 :: l).take 3 == ['!', '-', '-']) = false := by
  cases l with
  | nil => simp [BEq.beq, List.beq, h]
  | cons b u =>
    cases u with
    | nil => simp [BEq.beq, List.beq, h]
    | cons d w => simp [BEq.beq, List.beq, h]

theorem childrenExec_selfclose (c0 : Char) (name' : List Char)
    (hall : ∀ a ∈ c0 :: name', isIdentChar a = true) :
    childrenExec ('<' :: (c0 :: name') ++ ['/', '>']) 0 =
      some ⟨0, (c0 :: name').length + 1, .tag 0 (c0 :: name')⟩ := by
  have hc0 : isIdentChar c0 = true := hall c0 (by simp)
  have hcm : ((c0 :: (name' ++ ['/', '>'])).take 3 == ['!', '-', '-'])
      = false :=
    take3_ne_comment _ (isIdentChar_ne (d := '!') hc0 (by decide))
  have hw : countWhile jsIsSpace (c0 :: (name' ++ ['/', '>'])) = 0 := by
    simp [countWhile, List.takeWhile_cons, jsIsSpace_of_ident hc0]
  have hsl : countWhile (fun ch => ch == '/')
      (c0 :: (name' ++ ['/', '>'])) = 0 := by
    simp [countWhile, List.takeWhile_cons,
      beq_eq_false_iff_ne.mpr (isIdentChar_ne (d := '/') hc0 (by decide))]
  have htw : (c0 :: (name' ++ ['/', '>'])).takeWhile isIdentChar
      = c0 :: name' := by
    have h4 := takeWhile_append_of_all isIdentChar (c0 :: name') ['/', '>']
      hall (by decide)
    simp only [List.cons_append] at h4
    exact h4
  simp only [childrenExec, List.drop_zero, List.cons_append]
  rw [childrenExecAux]
  rw [if_neg (show ¬ (('<' == '\r' || '<' == '\n') = true) by decide),
    if_pos (show ('<' == '<') = true by decide),
    if_neg (show ¬ ((c0 :: (name' ++ ['/', '>'])).take 3
      == ['!', '-', '-']) = true by rw [hcm]; simp)]
  simp only [hw, hsl, htw, List.drop_zero, Nat.min_zero]
  simp [ChMatch.mk.injEq]
  omega

theorem slice_self (l : List Char) (a : Nat) : slice l a a = [] := by
  apply List.drop_eq_nil_of_le
  exact List.length_take_le a l

theorem drop_span_selfclose (name : List Char) :
    (('<' :: name ++ ['/', '>']).drop (name.length + 1)) = ['/', '>'] := by
  have h : ('<' :: name ++ ['/', '>'])
      = ('<' :: name) ++ ['/', '>'] := by simp
  rw [h]
  have h2 : ('<' :: name).length = name.length + 1 := by simp
  rw [← h2, List.drop_left]

theorem propsExec_selfclose (name : List Char) :
    propsExec ('<' :: name ++ ['/', '>']) (name.length + 1) =
      some (name.length + 1, name.length + 3, .tagEnd true) := by
  rw [propsExec, drop_span_selfclose]
  rw [propsExecAux]
  rw [propsAltAt]
  rw [if_neg (show ¬ (('/' == '>') = true) by decide),
    if_pos (show ('/' == '/') = true by decide)]
  have hgx : List.takeWhile jsIsSpace ['>'] = [] := by decide
  simp [countWhile, hgx]

/-- One unfolding of the inner scanning loop at a successor fuel value. -/
theorem innerLoop_succ (fuel : Nat) (st : PState) (span : List Char)
    (v : JSValue) (i : Nat) :
    innerLoop (fuel + 1) st span v i =
      if i < span.length then
        match stepOnce st span i v with
        | .error e => .error e
        | .ok (st', stop) => innerLoop fuel st' span v stop
      else .ok st := rfl

/-- For every nonempty identifier `name`, parsing the single self-closed
element `<name/>` yields the implicit root wrapper with one child element
carrying that tag, no props and no children. -/
theorem parse_single_selfclose (name : List Char) (hne : name ≠ [])
    (hall : ∀ a ∈ name, isIdentChar a = true) :
    parse [String.mk ('<' :: name ++ ['/', '>'])] [] =
      .ok ⟨.str "", none, [.element (.str (String.mk name)) none []]⟩ := by
  obtain ⟨c0, name', rfl⟩ : ∃ c h, name = c :: h := by
    cases name with
    | nil => exact absurd rfl hne
    | cons a t => exact ⟨a, t, rfl⟩
  set name := c0 :: name' with hname
  set span : List Char := '<' :: name ++ ['/', '>'] with hspan
  have hlen : span.length = name.length + 3 := by simp [hspan]
  have hst1 : handleChildren initState span 0 .undefined =
      .ok (⟨⟨.str (String.mk name), none, []⟩, [⟨.str "", none, []⟩],
        .props, false, [], [], false⟩, name.length + 1) := by
    rw [handleChildren]
    rw [show childrenExec span 0 =
      some ⟨0, name.length + 1, .tag 0 name⟩ from
      childrenExec_selfclose c0 name' hall]
    simp [emitBefore, finishChildren, initState, hlen]
  have hst2 : handleProps ⟨⟨.str (String.mk name), none, []⟩,
      [⟨.str "", none, []⟩], .props, false, [], [], false⟩ span
      (name.length + 1) .undefined =
      .ok (⟨⟨.str "", none, [.element (.str (String.mk name)) none []]⟩,
        [], .children, false, [], [], false⟩, name.length + 3) := by
    rw [handleProps]
    rw [show propsExec span (name.length + 1) =
      some (name.length + 1, name.length + 3, .tagEnd true) from
      propsExec_selfclose name]
    simp [slice_self, popInto, propsEndFinish, Elem.toNode]
  have hloop : innerLoop (span.length + 1) initState span .undefined 0 =
      .ok ⟨⟨.str "", none, [.element (.str (String.mk name)) none []]⟩,
        [], .children, false, [], [], false⟩ := by
    rw [innerLoop_succ, if_pos (show 0 < span.length by rw [hlen]; omega)]
    rw [show stepOnce initState span 0 .undefined =
      handleChildren initState span 0 .undefined from rfl]
    rw [hst1]
    simp only []
    rw [hlen, show name.length + 3 = (name.length + 2) + 1 from rfl]
    rw [innerLoop_succ, if_pos (show name.length + 1 < span.length by
      rw [hlen]; omega)]
    rw [show stepOnce ⟨⟨.str (String.mk name), none, []⟩,
      [⟨.str "", none, []⟩], .props, false, [], [], false⟩ span
      (name.length + 1) .undefined =
      handleProps ⟨⟨.str (String.mk name), none, []⟩,
      [⟨.str "", none, []⟩], .props, false, [], [], false⟩ span
      (name.length + 1) .undefined from rfl]
    rw [hst2]
    simp only []
    rw [show name.length + 2 = (name.length + 1) + 1 from rfl]
    rw [innerLoop_succ, if_neg (show ¬ (name.length + 3 < span.length) by
      rw [hlen]; omega)]
  show parse [String.mk span] [] = _
  rw [parse]
  rw [show ([String.mk span].map (·.data)) = [span] from rfl]
  rw [runSpansAux]
  rw [show runSpan initState span (([] : List JSValue).headD .undefined)
      ([] : List (List Char)).isEmpty =
    runSpan initState span .undefined true from rfl]
  rw [runSpan]
  rw [show spanStart initState span .undefined true = initState from rfl]
  rw [hloop]
  simp [runSpansAux]

/-- Claim C2: for every identifier, parsing a single element opened and
immediately self-closed with no props yields an element with that tag, null
props and no children; and the self-closing terminator pops the stack and
returns the scanner to Children mode. -/
theorem claim2 :
    (∀ (name : List Char), name ≠ [] →
      (∀ a ∈ name, isIdentChar a = true) →
      parse [String.mk ('<' :: name ++ ['/', '>'])] [] =
        .ok ⟨.str "", none,
          [.element (.str (String.mk name)) none []]⟩) ∧
    (∀ (st : PState) (span : List Char) (i : Nat) (exprVal : JSValue)
        (p stop : Nat) (top : Elem) (rest : List Elem),
      propsExec span i = some (p, stop, .tagEnd true) →
      (slice span i p).all jsIsSpace = true →
      st.stack = top :: rest →
      ∃ st', handleProps st span i exprVal = .ok (st', stop) ∧
        st'.matcher = .children ∧ st'.stack = rest) ∧
    parse ["<x/>"] [] =
      .ok ⟨.str "", none, [.element (.str "x") none []]⟩ := by
  refine ⟨parse_single_selfclose, ?_, rfl⟩
  intro st span i exprVal p stop top rest hexec hws hstack
  simp only [handleProps, hexec, hws, hstack, propsEndFinish, popInto,
    pushChild, not_true, Bool.not_eq_true, Bool.true_eq_false, if_false,
    if_true]
  by_cases hc : st.expressing = true ∧ stop = span.length
  · exact ⟨_, by rw [if_pos hc], rfl, rfl⟩
  · exact ⟨_, by rw [if_neg hc], rfl, rfl⟩

/-- Witness for C2: the universal self-closing law applied to the
identifier `ab`, and the pop/mode conjunct applied to the props fragment of
`<x/>`. -/
theorem claim2_witness :
    parse [String.mk ('<' :: ['a', 'b'] ++ ['/', '>'])] [] =
      .ok ⟨.str "", none,
        [.element (.str (String.mk ['a', 'b'])) none []]⟩ ∧
    (∃ st', handleProps ⟨⟨.str "x", none, []⟩, [⟨.str "", none, []⟩],
        .props, false, [], [], false⟩ "<x/>".data 2 .undefined =
        .ok (st', 4) ∧
      st'.matcher = .children ∧ st'.stack = []) :=
  ⟨claim2.1 ['a', 'b'] (by decide) (by decide),
   claim2.2.1 ⟨⟨.str "x", none, []⟩, [⟨.str "", none, []⟩], .props, false,
     [], [], false⟩ "<x/>".data 2 .undefined 2 4 ⟨.str "", none, []⟩ []
     rfl rfl rfl⟩

def StackInv (st : PState) : Prop :=
  (st.matcher = .props ∨ st.matcher = .singleQuote ∨
    st.matcher = .doubleQuote) → st.stack ≠ []

theorem stackInv_of_stack {st : PState} (h : st.stack ≠ []) : StackInv st :=
  fun _ => h

theorem stackInv_of_children {st : PState} (h : st.matcher = .children) :
    StackInv st := by
  intro hd
  rcases hd with h1 | h1 | h1 <;> rw [h] at h1 <;> exact Matcher.noConfusion h1

theorem stackInv_of_closingTag {st : PState} (h : st.matcher = .closingTag) :
    StackInv st := by
  intro hd
  rcases hd with h1 | h1 | h1 <;> rw [h] at h1 <;> exact Matcher.noConfusion h1

theorem stackInv_of_closingComment {st : PState}
    (h : st.matcher = .closingComment) : StackInv st := by
  intro hd
  rcases hd with h1 | h1 | h1 <;> rw [h] at h1 <;> exact Matcher.noConfusion h1

theorem pushChild_matcher (st : PState) (n : PNode) :
    (pushChild st n).matcher = st.matcher := rfl

theorem pushChild_stack (st : PState) (n : PNode) :
    (pushChild st n).stack = st.stack := rfl

theorem emitBefore_matcher (st : PState) (span : List Char) (i : Nat)
    (m : ChMatch) : (emitBefore st span i m).matcher = st.matcher := by
  rw [emitBefore]
  split
  · split <;> (dsimp only; split <;> rfl)
  · rfl

theorem emitBefore_stack (st : PState) (span : List Char) (i : Nat)
    (m : ChMatch) : (emitBefore st span i m).stack = st.stack := by
  rw [emitBefore]
  split
  · split <;> (dsimp only; split <;> rfl)
  · rfl

theorem finishChildren_matcher (st : PState) (stop : Nat)
    (span : List Char) (v : JSValue) :
    (finishChildren st stop span v).1.matcher = st.matcher := by
  rw [finishChildren]
  split
  · rfl
  · rfl

theorem finishChildren_stack (st : PState) (stop : Nat)
    (span : List Char) (v : JSValue) :
    (finishChildren st stop span v).1.stack = st.stack := by
  rw [finishChildren]
  split
  · rfl
  · rfl

theorem propsEndFinish_matcher (st : PState) (stop : Nat)
    (span : List Char) (v : JSValue) :
    (propsEndFinish st stop span v).1.matcher = st.matcher := by
  rw [propsEndFinish]
  split
  · rfl
  · rfl

theorem propsEndFinish_stack (st : PState) (stop : Nat)
    (span : List Char) (v : JSValue) :
    (propsEndFinish st stop span v).1.stack = st.stack := by
  rw [propsEndFinish]
  split
  · rfl
  · rfl

theorem emitAfter_matcher (st : PState) (span : List Char) (i : Nat) :
    (emitAfter st span i).matcher = st.matcher := by
  rw [emitAfter]
  split
  · dsimp only
    split <;> (split <;> rfl)
  · rfl

theorem emitAfter_stack (st : PState) (span : List Char) (i : Nat) :
    (emitAfter st span i).stack = st.stack := by
  rw [emitAfter]
  split
  · dsimp only
    split <;> (split <;> rfl)
  · rfl

theorem closingStep_no_underflow (st : PState) (sl : Nat) (t : JSValue) :
    closingStep st sl t ≠ .error .stackUnderflow := by
  rw [closingStep]
  split
  · intro h
    injection h with h2
    exact PErr.noConfusion h2
  · split
    · intro h
      injection h with h2
      exact PErr.noConfusion h2
    · intro h
      exact Except.noConfusion h

theorem closingStep_ok_matcher (st stA : PState) (sl : Nat) (t : JSValue)
    (h : closingStep st sl t = .ok stA) : stA.matcher = .closingTag := by
  rw [closingStep] at h
  revert h
  split
  · intro h
    exact Except.noConfusion h
  · split
    · intro h
      exact Except.noConfusion h
    · intro h
      injection h with h2
      rw [← h2]

theorem handleChildren_inv (st : PState) (span : List Char) (i : Nat)
    (v : JSValue) (hm : st.matcher = .children) :
    handleChildren st span i v ≠ .error .stackUnderflow ∧
    (∀ st' stop, handleChildren st span i v = .ok (st', stop) →
      StackInv st') := by
  rw [handleChildren]
  cases hce : childrenExec span i with
  | none =>
    refine ⟨fun h => Except.noConfusion h, ?_⟩
    intro st' stop h
    injection h with hpair
    have h1 := congrArg Prod.fst hpair
    dsimp only at h1
    apply stackInv_of_children
    rw [← h1, finishChildren_matcher, emitAfter_matcher, hm]
  | some m =>
    obtain ⟨idx, mstop, kind⟩ := m
    cases kind with
    | newline =>
      dsimp only
      refine ⟨fun h => Except.noConfusion h, ?_⟩
      intro st' stop h
      injection h with hpair
      have h1 := congrArg Prod.fst hpair
      dsimp only at h1
      apply stackInv_of_children
      rw [← h1, finishChildren_matcher]
      dsimp only
      rw [emitBefore_matcher, hm]
    | comment =>
      dsimp only
      split
      · refine ⟨fun h => Except.noConfusion h, ?_⟩
        intro st' stop h
        injection h with hpair
        have h1 := congrArg Prod.fst hpair
        dsimp only at h1
        apply stackInv_of_closingComment
        rw [← h1, finishChildren_matcher]
      · refine ⟨fun h => Except.noConfusion h, ?_⟩
        intro st' stop h
        injection h with hpair
        have h1 := congrArg Prod.fst hpair
        dsimp only at h1
        apply stackInv_of_children
        rw [← h1, finishChildren_matcher]
        dsimp only
        rw [emitBefore_matcher, hm]
    | tag slashes name =>
      dsimp only
      split
      · split
        · rename_i e hcs
          refine ⟨?_, ?_⟩
          · intro h
            injection h with h2
            rw [h2] at hcs
            exact closingStep_no_underflow _ _ _ hcs
          · intro st' stop h
            exact Except.noConfusion h
        · rename_i stA hcs
          refine ⟨fun h => Except.noConfusion h, ?_⟩
          intro st' stop h
          injection h with hpair
          have h1 := congrArg Prod.fst hpair
          dsimp only at h1
          apply stackInv_of_closingTag
          rw [← h1, finishChildren_matcher]
          exact closingStep_ok_matcher _ _ _ _ hcs
      · refine ⟨fun h => Except.noConfusion h, ?_⟩
        intro st' stop h
        injection h with hpair
        have h1 := congrArg Prod.fst hpair
        dsimp only at h1
        apply stackInv_of_stack
        rw [← h1, finishChildren_stack]
        exact cons_stack_ne_nil _ _

theorem handleProps_inv (st : PState) (span : List Char) (i : Nat)
    (v : JSValue) (hstk : st.stack ≠ []) :
    handleProps st span i v ≠ .error .stackUnderflow ∧
    (∀ st' stop, handleProps st span i v = .ok (st', stop) →
      StackInv st') := by
  rw [handleProps]
  split
  · rename_i p stop kind heq
    split
    · -- garbage text
      refine ⟨?_, ?_⟩
      · intro h
        injection h with h2
        exact PErr.noConfusion h2
      · intro st' stop' h
        exact Except.noConfusion h
    · split
      · -- tagEnd
        rename_i selfClose
        split
        · -- self closing
          split
          · rename_i hnil
            exact absurd hnil hstk
          · rename_i top rest hcons
            refine ⟨fun h => Except.noConfusion h, ?_⟩
            intro st' stop' h
            injection h with hpair
            have h1 := congrArg Prod.fst hpair
            dsimp only at h1
            apply stackInv_of_children
            rw [← h1, propsEndFinish_matcher]
        · refine ⟨fun h => Except.noConfusion h, ?_⟩
          intro st' stop' h
          injection h with hpair
          have h1 := congrArg Prod.fst hpair
          dsimp only at h1
          apply stackInv_of_children
          rw [← h1, propsEndFinish_matcher]
      · -- spread
        split
        · refine ⟨fun h => Except.noConfusion h, ?_⟩
          intro st' stop' h
          injection h with hpair
          have h1 := congrArg Prod.fst hpair
          dsimp only at h1
          apply stackInv_of_stack
          rw [← h1]
          exact hstk
        · refine ⟨?_, ?_⟩
          · intro h
            injection h with h2
            exact PErr.noConfusion h2
          · intro st' stop' h
            exact Except.noConfusion h
      · -- prop
        rename_i name equals strOpt
        split
        · -- no string
          split
          · refine ⟨fun h => Except.noConfusion h, ?_⟩
            intro st' stop' h
            injection h with hpair
            have h1 := congrArg Prod.fst hpair
            dsimp only at h1
            apply stackInv_of_stack
            rw [← h1]
            exact hstk
          · split
            · refine ⟨?_, ?_⟩
              · intro h
                injection h with h2
                exact PErr.noConfusion h2
              · intro st' stop' h
                exact Except.noConfusion h
            · split
              · refine ⟨?_, ?_⟩
                · intro h
                  injection h with h2
                  exact PErr.noConfusion h2
                · intro st' stop' h
                  exact Except.noConfusion h
              · refine ⟨fun h => Except.noConfusion h, ?_⟩
                intro st' stop' h
                injection h with hpair
                have h1 := congrArg Prod.fst hpair
                dsimp only at h1
                apply stackInv_of_stack
                rw [← h1]
                exact hstk
        · -- quoted string
          split
          · refine ⟨fun h => Except.noConfusion h, ?_⟩
            intro st' stop' h
            injection h with hpair
            have h1 := congrArg Prod.fst hpair
            dsimp only at h1
            apply stackInv_of_stack
            rw [← h1]
            exact hstk
          · refine ⟨fun h => Except.noConfusion h, ?_⟩
            intro st' stop' h
            injection h with hpair
            have h1 := congrArg Prod.fst hpair
            dsimp only at h1
            apply stackInv_of_stack
            rw [← h1]
            exact hstk
  · -- no match
    split
    · refine ⟨?_, ?_⟩
      · intro h
        injection h with h2
        exact PErr.noConfusion h2
      · intro st' stop' h
        exact Except.noConfusion h
    · refine ⟨fun h => Except.noConfusion h, ?_⟩
      intro st' stop' h
      injection h with hpair
      have h1 := congrArg Prod.fst hpair
      dsimp only at h1
      apply stackInv_of_stack
      rw [← h1]
      exact hstk

theorem handleClosingTag_inv (st : PState) (span : List Char) (i : Nat)
    (hm : st.matcher = .closingTag) :
    handleClosingTag st span i ≠ .error .stackUnderflow ∧
    (∀ st' stop, handleClosingTag st span i = .ok (st', stop) →
      StackInv st') := by
  rw [handleClosingTag]
  split
  · split
    · refine ⟨?_, ?_⟩
      · intro h
        injection h with h2
        exact PErr.noConfusion h2
      · intro st' stop' h
        exact Except.noConfusion h
    · refine ⟨fun h => Except.noConfusion h, ?_⟩
      intro st' stop' h
      injection h with hpair
      have h1 := congrArg Prod.fst hpair
      dsimp only at h1
      apply stackInv_of_children
      rw [← h1]
  · split
    · refine ⟨?_, ?_⟩
      · intro h
        injection h with h2
        exact PErr.noConfusion h2
      · intro st' stop' h
        exact Except.noConfusion h
    · refine ⟨fun h => Except.noConfusion h, ?_⟩
      intro st' stop' h
      injection h with hpair
      have h1 := congrArg Prod.fst hpair
      dsimp only at h1
      apply stackInv_of_closingTag
      rw [← h1]
      exact hm

theorem handleQuote_inv (q : Char) (st : PState) (span : List Char)
    (i : Nat) (v : JSValue) (hstk : st.stack ≠ []) :
    handleQuote q st span i v ≠ .error .stackUnderflow ∧
    (∀ st' stop, handleQuote q st span i v = .ok (st', stop) →
      StackInv st') := by
  rw [handleQuote]
  refine ⟨fun h => Except.noConfusion h, ?_⟩
  intro st' stop' h
  injection h with hpair
  have h1 := congrArg Prod.fst hpair
  dsimp only at h1
  apply stackInv_of_stack
  rw [← h1]
  dsimp only
  split
  · split <;> (dsimp only; exact hstk)
  · split <;> (dsimp only; exact hstk)

theorem handleComment_inv (st : PState) (span : List Char) (i : Nat)
    (hm : st.matcher = .closingComment) :
    handleComment st span i ≠ .error .stackUnderflow ∧
    (∀ st' stop, handleComment st span i = .ok (st', stop) →
      StackInv st') := by
  rw [handleComment]
  split
  · refine ⟨fun h => Except.noConfusion h, ?_⟩
    intro st' stop' h
    injection h with hpair
    have h1 := congrArg Prod.fst hpair
    dsimp only at h1
    apply stackInv_of_children
    rw [← h1]
  · split
    · refine ⟨?_, ?_⟩
      · intro h
        injection h with h2
        exact PErr.noConfusion h2
      · intro st' stop' h
        exact Except.noConfusion h
    · refine ⟨fun h => Except.noConfusion h, ?_⟩
      intro st' stop' h
      injection h with hpair
      have h1 := congrArg Prod.fst hpair
      dsimp only at h1
      apply stackInv_of_closingComment
      rw [← h1]
      exact hm

theorem stepOnce_inv (st : PState) (span : List Char) (i : Nat)
    (v : JSValue) (hinv : StackInv st) :
    stepOnce st span i v ≠ .error .stackUnderflow ∧
    (∀ st' stop, stepOnce st span i v = .ok (st', stop) → StackInv st') := by
  rw [stepOnce]
  cases hm : st.matcher with
  | children => exact handleChildren_inv st span i v hm
  | props => exact handleProps_inv st span i v (hinv (Or.inl hm))
  | closingTag => exact handleClosingTag_inv st span i hm
  | singleQuote =>
    exact handleQuote_inv '\'' st span i v (hinv (Or.inr (Or.inl hm)))
  | doubleQuote =>
    exact handleQuote_inv '"' st span i v (hinv (Or.inr (Or.inr hm)))
  | closingComment => exact handleComment_inv st span i hm

theorem innerLoop_inv (fuel : Nat) : ∀ (st : PState) (span : List Char)
    (v : JSValue) (i : Nat), StackInv st →
    innerLoop fuel st span v i ≠ .error .stackUnderflow ∧
    (∀ stF, innerLoop fuel st span v i = .ok stF → StackInv stF) := by
  induction fuel with
  | zero =>
    intro st span v i hinv
    refine ⟨fun h => Except.noConfusion h, ?_⟩
    intro stF h
    injection h with h2
    rw [← h2]
    exact hinv
  | succ fuel ih =>
    intro st span v i hinv
    rw [innerLoop_succ]
    split
    · cases hso : stepOnce st span i v with
      | error e =>
        refine ⟨?_, ?_⟩
        · intro h
          injection h with h2
          rw [h2] at hso
          exact (stepOnce_inv st span i v hinv).1 hso
        · intro stF h
          exact Except.noConfusion h
      | ok pr =>
        obtain ⟨st2, stop⟩ := pr
        exact ih st2 span v stop
          ((stepOnce_inv st span i v hinv).2 st2 stop hso)
    · refine ⟨fun h => Except.noConfusion h, ?_⟩
      intro stF h
      injection h with h2
      rw [← h2]
      exact hinv

theorem spanStart_inv (st : PState) (span : List Char) (v : JSValue)
    (isLast : Bool) (hinv : StackInv st) :
    StackInv (spanStart st span v isLast) := by
  rw [spanStart]
  dsimp only
  split
  · split
    · exact hinv
    · exact hinv
    · exact hinv
    · exact hinv
  · exact hinv

theorem runSpan_inv (st : PState) (span : List Char) (v : JSValue)
    (isLast : Bool) (hinv : StackInv st) :
    runSpan st span v isLast ≠ .error .stackUnderflow ∧
    (∀ stF, runSpan st span v isLast = .ok stF → StackInv stF) := by
  rw [runSpan]
  have hS : StackInv (spanStart st span v isLast) :=
    spanStart_inv st span v isLast hinv
  cases hil : innerLoop (span.length + 1) (spanStart st span v isLast)
      span v 0 with
  | error e =>
    refine ⟨?_, fun stF h => Except.noConfusion h⟩
    intro h
    injection h with h2
    rw [h2] at hil
    exact (innerLoop_inv _ _ _ _ _ hS).1 hil
  | ok st1 =>
    dsimp only
    split
    · refine ⟨?_, fun stF h => Except.noConfusion h⟩
      intro h
      injection h with h2
      exact PErr.noConfusion h2
    · refine ⟨fun h => Except.noConfusion h, ?_⟩
      intro stF h
      injection h with h2
      rw [← h2]
      exact (innerLoop_inv _ _ _ _ _ hS).2 st1 hil

theorem runSpansAux_inv (spans : List (List Char)) :
    ∀ (exprs : List JSValue) (st : PState), StackInv st →
    runSpansAux spans exprs st ≠ .error .stackUnderflow ∧
    (∀ stF, runSpansAux spans exprs st = .ok stF → StackInv stF) := by
  induction spans with
  | nil =>
    intro exprs st hinv
    refine ⟨fun h => Except.noConfusion h, ?_⟩
    intro stF h
    injection h with h2
    rw [← h2]
    exact hinv
  | cons span rest ih =>
    intro exprs st hinv
    rw [runSpansAux]
    cases hrs : runSpan st span (exprs.headD .undefined) rest.isEmpty with
    | error e =>
      refine ⟨?_, fun stF h => Except.noConfusion h⟩
      intro h
      injection h with h2
      rw [h2] at hrs
      exact (runSpan_inv _ _ _ _ hinv).1 hrs
    | ok st1 =>
      exact ih exprs.tail st1 ((runSpan_inv _ _ _ _ hinv).2 st1 hrs)

/-- Claim C10: whenever the scanner is in Props mode (or inside a quoted
attribute value, which returns to Props mode) the element stack is
non-empty, because those modes are only entered right after pushing the
enclosing element; hence the unguarded stack pop on a self-closing tag
terminator never underflows and parse never reaches the stack-underflow
crash. -/
theorem claim10 :
    (∀ (spans : List String) (exprs : List JSValue),
      parse spans exprs ≠ .error .stackUnderflow) ∧
    (∀ (spans : List String) (exprs : List JSValue) (st : PState),
      runSpansAux (spans.map (·.data)) exprs initState = .ok st →
      (st.matcher = .props ∨ st.matcher = .singleQuote ∨
        st.matcher = .doubleQuote) → st.stack ≠ []) := by
  have hinit : StackInv initState := stackInv_of_children rfl
  constructor
  · intro spans exprs
    rw [parse]
    cases hr : runSpansAux (spans.map (·.data)) exprs initState with
    | error e =>
      intro h
      injection h with h2
      rw [h2] at hr
      exact (runSpansAux_inv _ _ _ hinit).1 hr
    | ok st =>
      dsimp only
      split
      · exact fun h => Except.noConfusion h
      · intro h
        injection h with h2
        exact PErr.noConfusion h2
  · intro spans exprs st hr
    exact (runSpansAux_inv _ _ _ hinit).2 st hr

/-- Witness for C10: the no-underflow conjunct at a concrete input, and the
Props-mode invariant applied to the scanner state left by the unfinished
fragment `<p`. -/
theorem claim10_witness :
    parse ["<p"] [] ≠ .error .stackUnderflow ∧
    (⟨⟨.str "p", none, []⟩, [⟨.str "", none, []⟩], .props, false, [], [],
      false⟩ : PState).stack ≠ [] :=
  ⟨claim10.1 ["<p"] [],
   claim10.2 ["<p"] []
     ⟨⟨.str "p", none, []⟩, [⟨.str "", none, []⟩], .props, false, [], [],
       false⟩ rfl (Or.inl rfl)⟩

end Crank
